import Mathlib

/-!
Verification development for the memory-lane entity-lifecycle layer:
Supabase-backed repositories for `timeline` and `memory` rows plus a blob
store holding uploaded images.  The definitions below are a shallow
embedding of the TypeScript service classes (`MemoryService`,
`TimelineService` in its two variants, `UploadService`): the database is a
record of row lists, the blob store a list of keys, and each operation is a
state-passing function.  Storage and per-row database failures, which the
source observes through driver error objects, are supplied by an explicit
environment of boolean outcomes; each `throw new Error(...)` site is one
constructor of `SvcError`.  Side-effect ordering, which the source fixes by
the sequence of `await`s, is recorded in an explicit event trace.
-/

/-- Row of the `memory` table (the columns the services read or write). -/
structure MemoryRow where
  id : String
  name : String
  description : String
  image_url : String
  image_key : String
  date_of_event : String
  timeline_id : String
deriving Repr, DecidableEq

/-- Row of the `timeline` table (the columns the services read or write). -/
structure TimelineRow where
  id : String
  name : String
  description : String
  slug : String
deriving Repr, DecidableEq

/-- Database plus blob-store state.  `memories` and `timelines` are held in
the order the store returns them (the services order by `date_of_event`
resp. `created_at` before paginating); `blobs` is the set of object keys
present in the `memory-images` bucket. -/
structure Db where
  timelines : List TimelineRow
  memories : List MemoryRow
  blobs : List String
deriving Repr, DecidableEq

/-- Outcomes of the fallible external calls: `removeOk k` is whether
`storage.remove([k])` succeeds, `rowDeleteOk i` whether the row delete for
memory id `i` inside the cascade loop succeeds, `listOk` whether the
cascade's initial listing query succeeds, `checkOk` whether the timeline
delete's memory-existence check succeeds, and `updateOk` whether the
`memory` row update statement succeeds. -/
structure Env where
  removeOk : String → Bool
  rowDeleteOk : String → Bool
  listOk : Bool
  checkOk : Bool
  updateOk : Bool

/-- One constructor per `throw new Error(...)` site in the services. -/
inductive SvcError where
  /-- Thrown as `Failed to fetch memory: ...` when the single-row fetch
  preceding a memory delete or read finds no row. -/
  | fetchMemoryFailed
  /-- Thrown as `Failed to update memory: ...`. -/
  | updateMemoryFailed
  /-- Thrown as `Failed to fetch memories by timeline: ...`. -/
  | fetchMemoriesByTimelineFailed
  /-- Thrown as `A timeline with this slug already exists`. -/
  | slugConflict
  /-- Thrown as `Failed to update timeline: ...`. -/
  | updateTimelineFailed
  /-- Thrown as `Failed to check timeline memories: ...`. -/
  | checkTimelineMemoriesFailed
deriving Repr, DecidableEq

/-- Events recording the order in which the services touch the stores. -/
inductive Event where
  /-- Query `select image_key eq id single` inside `MemoryService.update`. -/
  | readImageKey (id : String)
  /-- Call `storage.from(bucket).remove([key])`, with its outcome. -/
  | removeBlob (key : String) (ok : Bool)
  /-- Statement `update(input).eq('id', id)` on the `memory` table. -/
  | updateRow (id : String)
  /-- Query `select image_key eq id single` inside `MemoryService.delete`. -/
  | fetchMemory (id : String)
  /-- Statement `delete().eq('id', id)` on the `memory` table, with its outcome. -/
  | deleteMemoryRow (id : String) (ok : Bool)
  /-- Listing query `select id, image_key eq timeline_id`. -/
  | listByTimeline (tid : String)
  /-- Existence check `select id eq timeline_id limit 1`. -/
  | checkMemories (tid : String)
  /-- Invocation of `memoryService.deleteByTimelineId`. -/
  | cascadeStart (tid : String)
  /-- Statement `delete().eq('id', id)` on the `timeline` table. -/
  | deleteTimelineRow (tid : String)
deriving Repr, DecidableEq

/-- Result object `{ success, id }` returned by the delete operations. -/
structure DeleteResult where
  success : Bool
  id : String
deriving Repr, DecidableEq

/-- JavaScript truthiness of a string: falsy exactly on the empty string. -/
def truthyStr (s : String) : Bool :=
  s ≠ ""

/-- JavaScript truthiness of an optional string field: falsy when the field
is absent or the empty string. -/
def truthyOpt : Option String → Bool
  | some s => truthyStr s
  | none => false

/-- Data returned by a PostgREST `.single()` whose error is discarded: the
row when the filter matched exactly one, `none` otherwise. -/
def singleResult {α : Type} : List α → Option α
  | [x] => some x
  | _ => none

/-- Limit/offset parameters accumulated on a PostgREST query builder. -/
structure QueryParams where
  limitP : Option Nat
  offsetP : Option Nat
deriving Repr, DecidableEq

/-- Builder state before `.limit` or `.range` is applied. -/
def QueryParams.init : QueryParams :=
  ⟨none, none⟩

/-- Effect of `.limit(l)`: sets the limit parameter. -/
def QueryParams.applyLimit (q : QueryParams) (l : Nat) : QueryParams :=
  { q with limitP := some l }

/-- Effect of `.range(f, t)`: sets offset `f` and limit `t - f + 1`,
overwriting any limit set earlier on the builder. -/
def QueryParams.applyRange (_q : QueryParams) (f t : Nat) : QueryParams :=
  { limitP := some (t - f + 1), offsetP := some f }

/-- Rows produced by running a query with the accumulated parameters over
the ordered result set. -/
def QueryParams.run {α : Type} (q : QueryParams) (rows : List α) : List α :=
  let dropped := rows.drop (q.offsetP.getD 0)
  match q.limitP with
  | some l => dropped.take l
  | none => dropped

/-- Pagination shared verbatim by `getAll`, `getByTimelineId` and both
`getAllWithMemoryCounts` variants:
`if (options?.limit) query = query.limit(options.limit);`
`if (options?.offset) query = query.range(options.offset,
options.offset + (options.limit || 10) - 1);`. -/
def paginate {α : Type} (rows : List α) (limit offset : Option Nat) : List α :=
  let q := QueryParams.init
  let q := match limit with
    | some l => if l ≠ 0 then q.applyLimit l else q
    | none => q
  let q := match offset with
    | some o =>
        if o ≠ 0 then q.applyRange o (o + ((limit.filter (· ≠ 0)).getD 10) - 1) else q
    | none => q
  q.run rows

namespace MemoryService

/-- Optional fields accepted by `MemoryService.update`. -/
structure UpdateMemoryInput where
  name : Option String := none
  description : Option String := none
  image_url : Option String := none
  image_key : Option String := none
  date_of_event : Option String := none
  timeline_id : Option String := none
deriving Repr, DecidableEq

/-- Row produced by applying the supplied fields of an update input. -/
def applyUpdate (m : MemoryRow) (input : UpdateMemoryInput) : MemoryRow :=
  { id := m.id
    name := input.name.getD m.name
    description := input.description.getD m.description
    image_url := input.image_url.getD m.image_url
    image_key := input.image_key.getD m.image_key
    date_of_event := input.date_of_event.getD m.date_of_event
    timeline_id := input.timeline_id.getD m.timeline_id }

/-- Embedding of `MemoryService.getAll`: the ordered `memory` result set
run through the shared pagination. -/
def getAll (db : Db) (limit offset : Option Nat) : List MemoryRow :=
  paginate db.memories limit offset

/-- Embedding of `MemoryService.getByTimelineId`: equality filter on
`timeline_id`, then the shared pagination. -/
def getByTimelineId (db : Db) (tid : String) (limit offset : Option Nat) :
    List MemoryRow :=
  paginate (db.memories.filter (fun m => m.timeline_id == tid)) limit offset

/-- Embedding of `MemoryService.update`.  When the input carries a truthy
`image_key`, the existing row's `image_key` is read first and, when present
and different, the old blob is removed (failure only logged); the row
update runs afterwards. -/
def update (db : Db) (env : Env) (id : String) (input : UpdateMemoryInput) :
    Except SvcError MemoryRow × Db × List Event :=
  let cleanup : Db × List Event :=
    if truthyOpt input.image_key then
      match singleResult (db.memories.filter (fun m => m.id == id)) with
      | some existingMemory =>
          if truthyStr existingMemory.image_key &&
              existingMemory.image_key != input.image_key.getD "" then
            let ok := env.removeOk existingMemory.image_key
            let db := if ok then
                { db with blobs := db.blobs.filter (fun k => k ≠ existingMemory.image_key) }
              else db
            (db, [Event.readImageKey id, Event.removeBlob existingMemory.image_key ok])
          else (db, [Event.readImageKey id])
      | none => (db, [Event.readImageKey id])
    else (db, [])
  let db1 := cleanup.1
  let tr1 := cleanup.2 ++ [Event.updateRow id]
  if env.updateOk then
    match singleResult (db1.memories.filter (fun m => m.id == id)) with
    | some m =>
        let updated := applyUpdate m input
        (Except.ok updated,
         { db1 with memories := db1.memories.map (fun r => if r.id == id then applyUpdate r input else r) },
         tr1)
    | none => (Except.error SvcError.updateMemoryFailed, db1, tr1)
  else (Except.error SvcError.updateMemoryFailed, db1, tr1)

/-- Embedding of `MemoryService.delete`: fetch the row (throwing when it is
absent), best-effort blob removal when `image_key` is truthy, then delete
the row. -/
def delete (db : Db) (env : Env) (id : String) :
    Except SvcError DeleteResult × Db × List Event :=
  match singleResult (db.memories.filter (fun m => m.id == id)) with
  | none => (Except.error SvcError.fetchMemoryFailed, db, [Event.fetchMemory id])
  | some memory =>
      let step : Db × List Event :=
        if truthyStr memory.image_key then
          let ok := env.removeOk memory.image_key
          let db := if ok then
              { db with blobs := db.blobs.filter (fun k => k ≠ memory.image_key) }
            else db
          (db, [Event.fetchMemory id, Event.removeBlob memory.image_key ok])
        else (db, [Event.fetchMemory id])
      let db1 := step.1
      (Except.ok ⟨true, id⟩,
       { db1 with memories := db1.memories.filter (fun m => m.id ≠ id) },
       step.2 ++ [Event.deleteMemoryRow id true])

/-- Body of the cascade loop of `deleteByTimelineId`: for each listed row,
best-effort blob removal when `image_key` is truthy, then a row delete
whose failure is only logged. -/
def deleteLoop (env : Env) : List MemoryRow → Db → Db × List Event
  | [], db => (db, [])
  | memory :: rest, db =>
      let blobStep : Db × List Event :=
        if truthyStr memory.image_key then
          let ok := env.removeOk memory.image_key
          let db := if ok then
              { db with blobs := db.blobs.filter (fun k => k ≠ memory.image_key) }
            else db
          (db, [Event.removeBlob memory.image_key ok])
        else (db, [])
      let db1 := blobStep.1
      let okDel := env.rowDeleteOk memory.id
      let db2 := if okDel then
          { db1 with memories := db1.memories.filter (fun m => m.id ≠ memory.id) }
        else db1
      let restResult := deleteLoop env rest db2
      (restResult.1, blobStep.2 ++ [Event.deleteMemoryRow memory.id okDel] ++ restResult.2)

/-- Embedding of `MemoryService.deleteByTimelineId`: list the rows under
the timeline (throwing when the listing fails), run the cascade loop, and
return `{ success: true, id: timelineId }` unconditionally afterwards. -/
def deleteByTimelineId (db : Db) (env : Env) (timelineId : String) :
    Except SvcError DeleteResult × Db × List Event :=
  if env.listOk then
    let listed := db.memories.filter (fun m => m.timeline_id == timelineId)
    let result := deleteLoop env listed db
    (Except.ok ⟨true, timelineId⟩, result.1, Event.listByTimeline timelineId :: result.2)
  else
    (Except.error SvcError.fetchMemoriesByTimelineFailed, db, [Event.listByTimeline timelineId])

end MemoryService

example :
    MemoryService.getAll ⟨[], [⟨"a", "", "", "", "", "", "t"⟩, ⟨"b", "", "", "", "", "", "t"⟩], []⟩
      none (some 1) = [⟨"b", "", "", "", "", "", "t"⟩] := by decide

example :
    (MemoryService.delete ⟨[], [⟨"a", "", "", "", "k1", "", "t"⟩], [("k1" : String)]⟩
      ⟨fun _ => false, fun _ => true, true, true, true⟩ ("a")).1 =
      Except.ok ⟨true, ("a")⟩ := rfl

namespace TimelineService

/-- Optional fields accepted by `TimelineService.update`. -/
structure UpdateTimelineInput where
  name : Option String := none
  description : Option String := none
  slug : Option String := none
deriving Repr, DecidableEq

/-- Row produced by applying the supplied fields of an update input. -/
def applyTimelineUpdate (t : TimelineRow) (input : UpdateTimelineInput) : TimelineRow :=
  { id := t.id
    name := input.name.getD t.name
    description := input.description.getD t.description
    slug := input.slug.getD t.slug }

/-- Lowercase-alphanumeric test used by `generateSlug`, i.e. membership in
the regex class `[a-z0-9]`. -/
def isAlnumLower (c : Char) : Bool :=
  (('a' ≤ c) && (c ≤ 'z')) || (('0' ≤ c) && (c ≤ '9'))

/-- Replacement of `/[^a-z0-9]+/g` by `'-'`: each maximal run of
characters outside `[a-z0-9]` becomes a single hyphen.  The flag records
whether the scan is inside such a run (so further run characters emit
nothing). -/
def collapseGo : Bool → List Char → List Char
  | _, [] => []
  | inRun, c :: cs =>
      if isAlnumLower c then c :: collapseGo false cs
      else if inRun then collapseGo true cs
      else '-' :: collapseGo true cs

/-- Removal of `/^-+|-+$/g`: strip leading and trailing runs of hyphens. -/
def stripDashes (l : List Char) : List Char :=
  List.rdropWhile (fun c => c == '-') (l.dropWhile (fun c => c == '-'))

/-- JavaScript `String.prototype.trim` on the character list. -/
def trimChars (l : List Char) : List Char :=
  List.rdropWhile Char.isWhitespace (l.dropWhile Char.isWhitespace)

/-- Embedding of `TimelineService.generateSlug`: lowercase, trim, collapse
runs of non-alphanumerics to single hyphens, strip outer hyphens. -/
def generateSlug (name : String) : String :=
  String.mk (stripDashes (collapseGo false (trimChars (name.data.map Char.toLower))))

/-- Fuelled recursion computing the decimal digit list of a natural
number, most significant digit first; any fuel exceeding the number
itself is enough, since the argument shrinks at every step. -/
def decimalDigitsAux : Nat → Nat → List Char
  | 0, _ => []
  | fuel + 1, n =>
      if n < 10 then [Nat.digitChar n]
      else decimalDigitsAux fuel (n / 10) ++ [Nat.digitChar (n % 10)]

/-- Decimal digit list of a natural number, most significant digit first:
the embedding of JavaScript number-to-string interpolation. -/
def decimalDigits (n : Nat) : List Char :=
  decimalDigitsAux (n + 1) n

/-- Decimal string of a natural number. -/
def decStr (n : Nat) : String :=
  String.mk (decimalDigits n)

/-- Candidate slug probed at loop iteration `k` of `generateUniqueSlug`:
the base slug itself first, then `base-1`, `base-2`, ... -/
def candidate (base : String) (k : Nat) : String :=
  if k = 0 then base else base ++ "-" ++ decStr k

/-- Probe `select id eq slug single` with its error discarded: the slug
counts as taken exactly when the data object is non-null, i.e. when the
filter matched a single row. -/
def slugTaken (timelines : List TimelineRow) (slug : String) : Bool :=
  (singleResult (timelines.filter (fun t => t.slug == slug))).isSome

/-- Fuelled unfolding of the `while (true)` probe loop of
`generateUniqueSlug`, starting at loop counter `counter`. -/
def generateUniqueSlugAux (timelines : List TimelineRow) (base : String) :
    Nat → Nat → Option String
  | 0, _ => none
  | fuel + 1, counter =>
      let slug := candidate base counter
      if slugTaken timelines slug then
        generateUniqueSlugAux timelines base fuel (counter + 1)
      else some slug

/-- Embedding of `TimelineService.generateUniqueSlug`.  The source loop is
unbounded; one more probe than there are timeline rows always suffices
(proved below), so that fuel is supplied here. -/
def generateUniqueSlug (db : Db) (name : String) : Option String :=
  generateUniqueSlugAux db.timelines (generateSlug name) (db.timelines.length + 1) 0

/-- Embedding of `TimelineService.getAll`: the ordered `timeline` result
set run through the shared pagination. -/
def getAll (db : Db) (limit offset : Option Nat) : List TimelineRow :=
  paginate db.timelines limit offset

/-- Row-update step shared by both branches of `TimelineService.update`:
`update(input).eq('id', id).select().single()`. -/
def updateRowStep (db : Db) (id : String) (input : UpdateTimelineInput) :
    Except SvcError TimelineRow × Db :=
  match singleResult (db.timelines.filter (fun t => t.id == id)) with
  | some t =>
      (Except.ok (applyTimelineUpdate t input),
       { db with timelines := db.timelines.map (fun r => if r.id == id then applyTimelineUpdate r input else r) })
  | none => (Except.error SvcError.updateTimelineFailed, db)

/-- Embedding of `TimelineService.update` (slug-checking variant): when a
truthy slug is supplied, a conflicting different row (probe with error
discarded, `neq('id', id)`) aborts with the slug-conflict throw before any
row is touched. -/
def update (db : Db) (id : String) (input : UpdateTimelineInput) :
    Except SvcError TimelineRow × Db :=
  if truthyOpt input.slug then
    match singleResult (db.timelines.filter
        (fun t => t.slug == input.slug.getD "" && t.id != id)) with
    | some _ => (Except.error SvcError.slugConflict, db)
    | none => updateRowStep db id input
  else updateRowStep db id input

/-- Embedding of the auto-cascade `TimelineService.delete`: check for
referencing memories (`limit 1`), cascade through
`MemoryService.deleteByTimelineId` when any exist, then delete the
timeline row. -/
def delete (db : Db) (env : Env) (id : String) :
    Except SvcError DeleteResult × Db × List Event :=
  if env.checkOk then
    let memories := (db.memories.filter (fun m => m.timeline_id == id)).take 1
    let afterCascade : Except SvcError Unit × Db × List Event :=
      if memories.length > 0 then
        let r := MemoryService.deleteByTimelineId db env id
        (r.1.map (fun _ => ()), r.2.1, Event.cascadeStart id :: r.2.2)
      else (Except.ok (), db, [])
    match afterCascade.1 with
    | Except.error e =>
        (Except.error e, afterCascade.2.1, Event.checkMemories id :: afterCascade.2.2)
    | Except.ok _ =>
        (Except.ok ⟨true, id⟩,
         { afterCascade.2.1 with
             timelines := afterCascade.2.1.timelines.filter (fun t => t.id ≠ id) },
         Event.checkMemories id :: afterCascade.2.2 ++ [Event.deleteTimelineRow id])
  else
    (Except.error SvcError.checkTimelineMemoriesFailed, db, [Event.checkMemories id])

/-- Embedding of the batched `getAllWithMemoryCounts` (single `IN`-set
child query folded into a frequency map).  The second component counts the
child-fetch queries the operation issues. -/
def getAllWithMemoryCounts (db : Db) (limit offset : Option Nat) :
    List (TimelineRow × Nat) × Nat :=
  let timelines := paginate db.timelines limit offset
  if timelines.isEmpty then ([], 0)
  else
    let timelineIds := timelines.map (fun t => t.id)
    let memoryCounts := db.memories.filter (fun m => timelineIds.contains m.timeline_id)
    let countMap : String → Nat :=
      memoryCounts.foldl
        (fun mp memory => fun tid => if tid == memory.timeline_id then mp tid + 1 else mp tid)
        (fun _ => 0)
    (timelines.map (fun t => (t, countMap t.id)), 1)

/-- Embedding of the naive per-timeline `getAllWithMemoryCounts` variant:
one exact-count query per timeline of the page.  The second component
counts the child-fetch queries the operation issues. -/
def getAllWithMemoryCountsNaive (db : Db) (limit offset : Option Nat) :
    List (TimelineRow × Nat) × Nat :=
  let timelines := paginate db.timelines limit offset
  (timelines.map (fun t => (t, db.memories.countP (fun m => m.timeline_id == t.id))),
   timelines.length)

end TimelineService

namespace UploadService

/-- Case-insensitive alphanumeric test, i.e. the complement of the regex
class `[^a-z0-9]` under the `i` flag. -/
def isAlnumCI (c : Char) : Bool :=
  TimelineService.isAlnumLower c || (('A' ≤ c) && (c ≤ 'Z'))

/-- Whether `pat` occurs at the head of the list. -/
def matchesAt : List Char → List Char → Bool
  | [], _ => true
  | _ :: _, [] => false
  | p :: ps, c :: cs => p == c && matchesAt ps cs

/-- JavaScript `String.prototype.replace` with a plain-string pattern and
empty replacement: remove the first occurrence of `pat`, if any. -/
def removeFirstOcc (pat : List Char) : List Char → List Char
  | [] => []
  | c :: cs =>
      if matchesAt pat (c :: cs) then (c :: cs).drop pat.length
      else c :: removeFirstOcc pat cs

/-- JavaScript `String.prototype.split` with a single-character
separator, on the character list. -/
def splitOnChar (sep : Char) : List Char → List (List Char)
  | [] => [[]]
  | c :: cs =>
      if c == sep then [] :: splitOnChar sep cs
      else
        match splitOnChar sep cs with
        | h :: t => (c :: h) :: t
        | [] => [[c]]

/-- Embedding of `fileName.split('.').pop()`: the final dot-separated
segment (the whole name when it contains no dot). -/
def fileExtension (fileName : String) : String :=
  String.mk ((splitOnChar '.' fileName.data).getLastD [])

/-- Embedding of the base-name sanitisation inside `generateFilePath`:
remove the first occurrence of `.extension`, replace every character
outside the case-insensitive alphanumerics by a hyphen, lowercase. -/
def sanitizedBaseName (fileName : String) : String :=
  let extension := fileExtension fileName
  let afterRemove := removeFirstOcc (("." ++ extension).data) fileName.data
  String.mk ((afterRemove.map (fun c => if isAlnumCI c then c else '-')).map Char.toLower)

/-- Embedding of `UploadService.generateFilePath`; the timestamp and the
random token, which the source draws from `Date.now()` and
`Math.random()`, are parameters. -/
def generateFilePath (timestamp : Nat) (randomString : String) (fileName : String) : String :=
  TimelineService.decStr timestamp ++ "-" ++ randomString ++ "-" ++
    sanitizedBaseName fileName ++ "." ++ fileExtension fileName

/-- Modelled from the spec for comparison with `sanitizedBaseName`: the
spec's sanitised base name, with every character outside `[a-z0-9]`
(case-folded) stripped rather than replaced. -/
def specStrippedBaseName (fileName : String) : String :=
  let extension := fileExtension fileName
  let afterRemove := removeFirstOcc (("." ++ extension).data) fileName.data
  String.mk ((afterRemove.map Char.toLower).filter TimelineService.isAlnumLower)

/-- Modelled from the spec for comparison with `generateFilePath`: the key
format the spec asserts, built from the stripped base name. -/
def specClaimFilePath (timestamp : Nat) (randomString : String) (fileName : String) : String :=
  TimelineService.decStr timestamp ++ "-" ++ randomString ++ "-" ++
    specStrippedBaseName fileName ++ "." ++ fileExtension fileName

end UploadService

/-- Acceptance by the regex `^[a-z0-9]+(-[a-z0-9]+)*$`, scanned as a
deterministic automaton whose state records whether the previous character
was an alphanumeric (initially false, so a leading hyphen or the empty
word is rejected, and acceptance requires ending on an alphanumeric). -/
def slugOkGo : Bool → List Char → Bool
  | prevAlnum, [] => prevAlnum
  | prevAlnum, c :: cs =>
      if TimelineService.isAlnumLower c then slugOkGo true cs
      else if c == '-' then prevAlnum && slugOkGo false cs
      else false

/-- Whether a string matches `^[a-z0-9]+(-[a-z0-9]+)*$`. -/
def slugOk (s : String) : Bool :=
  slugOkGo false s.data

/-- Occurrence of event `a` strictly before event `b` in a trace. -/
def eventBefore (a b : Event) (tr : List Event) : Prop :=
  ∃ t1 t2 t3, tr = t1 ++ a :: t2 ++ b :: t3

example : TimelineService.generateSlug ("Trip to Rome!!") = ("trip-to-rome") := by decide
example : TimelineService.generateSlug ("  --x__9  ") = ("x-9") := by decide
example : TimelineService.generateSlug ("!!!") = ("") := by decide
example : slugOk ("trip-to-rome") = true := by decide
example : slugOk ("-a") = false := by decide
example : slugOk ("a--b") = false := by decide
example : slugOk ("") = false := by decide
example : TimelineService.decStr 120 = ("120") := by decide
example : UploadService.generateFilePath 99 ("r4nd") ("My Photo.PNG") =
    ("99-r4nd-my-photo.PNG") := by decide
example : UploadService.sanitizedBaseName ("a.png.png") = ("a-png") := by decide

/-- Memory-row fixture with the fields the claims exercise. -/
def mRow (id tid key : String) : MemoryRow :=
  ⟨id, "", "", "", key, "", tid⟩

/-- Timeline-row fixture with the fields the claims exercise. -/
def tRow (id slug : String) : TimelineRow :=
  ⟨id, "", "", slug⟩

/-- Fixture database: two timelines, three memories, their blobs. -/
def dbFix : Db :=
  ⟨[tRow ("t1") ("one"), tRow ("t2") ("two")],
   [mRow ("a") ("t1") ("ka"), mRow ("b") ("t1") ("kb"), mRow ("c") ("t2") ("kc")],
   [("ka"), ("kb"), ("kc")]⟩

/-- Environment in which every external call succeeds. -/
def envAllOk : Env :=
  ⟨fun _ => true, fun _ => true, true, true, true⟩

/-- Environment in which every blob removal fails but the database calls
succeed. -/
def envStorageFail : Env :=
  ⟨fun _ => false, fun _ => true, true, true, true⟩

/-- Environment in which every blob removal and every per-item row delete
fails, while the listing queries succeed. -/
def envItemFail : Env :=
  ⟨fun _ => false, fun _ => false, true, true, true⟩

/-- Environment in which blob removals succeed but the memory row update
statement fails. -/
def envUpdateFail : Env :=
  ⟨fun _ => true, fun _ => true, true, true, false⟩

/-- Whether every character is a lowercase alphanumeric or a hyphen — the
alphabet of the slug regex. -/
def allSlugChars (l : List Char) : Bool :=
  l.all (fun c => TimelineService.isAlnumLower c || c == '-')

/-- Whether the list contains no two adjacent hyphens. -/
def noDoubleDash : List Char → Bool
  | c :: d :: rest => if c == '-' && d == '-' then false else noDoubleDash (d :: rest)
  | _ => true

/-- Numeric value of a decimal digit character. -/
def charVal (c : Char) : Nat :=
  c.toNat - 48

/-- Value of a most-significant-first decimal digit list. -/
def digitsVal (l : List Char) : Nat :=
  l.foldl (fun a c => 10 * a + charVal c) 0

/-- Fixture timelines whose slugs collide with the derived base slug and
its first numbered variant. -/
def dbSlugs : Db :=
  ⟨[tRow ("t1") ("trip-to-rome"), tRow ("t2") ("trip-to-rome-1")], [], []⟩

/-- With a positive offset and no limit, the builder receives
`range(o, o + 10 - 1)` and the page is rows `o` through `o + 9`. -/
theorem paginate_offset_only {α : Type} (rows : List α) (o : Nat) (ho : o ≠ 0) :
    paginate rows none (some o) = (rows.drop o).take 10 := by
  have h10 : o + 10 - 1 - o + 1 = 10 := by omega
  simp [paginate, QueryParams.init, QueryParams.applyRange, QueryParams.run, ho, h10]

/-- With a positive limit and no offset, only `.limit` applies and the
page is the first `l` rows. -/
theorem paginate_limit_only {α : Type} (rows : List α) (l : Nat) (hl : l ≠ 0) :
    paginate rows (some l) none = rows.take l := by
  simp [paginate, QueryParams.init, QueryParams.applyLimit, QueryParams.run, hl]

/-- With neither option the whole ordered result set is returned. -/
theorem paginate_none {α : Type} (rows : List α) :
    paginate rows none none = rows := by
  simp [paginate, QueryParams.init, QueryParams.run]

/-- Mapping a list into key-value pairs and projecting the keys back is
the identity. -/
theorem map_fst_pair {α β : Type} (f : α → β) (l : List α) :
    (l.map (fun t => (t, f t))).map Prod.fst = l := by
  induction l with
  | nil => rfl
  | cons h t ih => simp [ih]

/-- C10: for Memory `getAll` and `getByTimelineId` and Timeline `getAll`
and `getAllWithMemoryCounts`, a positive offset without a limit caps the
page at 10 rows (rows `offset` through `offset + 9` of the ordered result
set); a positive limit alone bounds the page from the start; and with
neither option no pagination applies. -/
theorem pagination_defaults (db : Db) (tid : String) (o l : Nat)
    (ho : o ≠ 0) (hl : l ≠ 0) :
    MemoryService.getAll db none (some o) = (db.memories.drop o).take 10
    ∧ MemoryService.getByTimelineId db tid none (some o) =
        ((db.memories.filter (fun m => m.timeline_id == tid)).drop o).take 10
    ∧ TimelineService.getAll db none (some o) = (db.timelines.drop o).take 10
    ∧ (TimelineService.getAllWithMemoryCounts db none (some o)).1.map Prod.fst =
        (db.timelines.drop o).take 10
    ∧ MemoryService.getAll db (some l) none = db.memories.take l
    ∧ TimelineService.getAll db (some l) none = db.timelines.take l
    ∧ MemoryService.getAll db none none = db.memories := by
  refine ⟨paginate_offset_only _ _ ho, paginate_offset_only _ _ ho,
    paginate_offset_only _ _ ho, ?_, paginate_limit_only _ _ hl,
    paginate_limit_only _ _ hl, paginate_none _⟩
  unfold TimelineService.getAllWithMemoryCounts
  rw [paginate_offset_only _ _ ho]
  by_cases hempty : ((db.timelines.drop o).take 10).isEmpty = true
  · simp [hempty, List.isEmpty_iff.mp hempty]
  · rw [if_neg hempty]
    exact map_fst_pair _ _

/-- Witness for C10 at a concrete database, offset 1 and limit 2. -/
theorem pagination_defaults_witness :
    (MemoryService.getAll dbFix none (some 1) = (dbFix.memories.drop 1).take 10
      ∧ MemoryService.getByTimelineId dbFix ("t1") none (some 1) =
          ((dbFix.memories.filter (fun m => m.timeline_id == ("t1" : String))).drop 1).take 10
      ∧ TimelineService.getAll dbFix none (some 1) = (dbFix.timelines.drop 1).take 10
      ∧ (TimelineService.getAllWithMemoryCounts dbFix none (some 1)).1.map Prod.fst =
          (dbFix.timelines.drop 1).take 10
      ∧ MemoryService.getAll dbFix (some 2) none = dbFix.memories.take 2
      ∧ TimelineService.getAll dbFix (some 2) none = dbFix.timelines.take 2
      ∧ MemoryService.getAll dbFix none none = dbFix.memories)
    ∧ MemoryService.getAll dbFix none (some 1) =
        [mRow ("b") ("t1") ("kb"), mRow ("c") ("t2") ("kc")] :=
  ⟨pagination_defaults dbFix ("t1") 1 2 (by decide) (by decide), by decide⟩

/-- C9: whenever the initial listing query succeeds,
`deleteByTimelineId` returns `{ success: true, id: timelineId }`, whatever
the outcomes of the per-item blob removals and row deletes. -/
theorem deleteByTimelineId_always_succeeds (db : Db) (env : Env) (tid : String)
    (h : env.listOk = true) :
    (MemoryService.deleteByTimelineId db env tid).1 = Except.ok ⟨true, tid⟩ := by
  simp [MemoryService.deleteByTimelineId, h]

/-- Witness for C9: every blob removal and every row delete fails, yet the
operation reports success. -/
theorem deleteByTimelineId_always_succeeds_witness :
    (MemoryService.deleteByTimelineId dbFix envItemFail ("t1")).1 =
      Except.ok ⟨true, ("t1")⟩ :=
  deleteByTimelineId_always_succeeds dbFix envItemFail ("t1") rfl

/-- C7: `MemoryService.delete` fails with the not-found throw and changes
nothing when the single-row fetch finds no row; otherwise it attempts the
blob removal exactly when the stored `image_key` is truthy, succeeds
regardless of that removal's outcome, deletes the row, and returns
`{ success: true, id }`. -/
theorem memoryDelete_spec (db : Db) (env : Env) (id : String) :
    (singleResult (db.memories.filter (fun m => m.id == id)) = none →
      MemoryService.delete db env id =
        (Except.error SvcError.fetchMemoryFailed, db, [Event.fetchMemory id]))
    ∧ (∀ m : MemoryRow,
        singleResult (db.memories.filter (fun r => r.id == id)) = some m →
        (MemoryService.delete db env id).1 = Except.ok ⟨true, id⟩
        ∧ (MemoryService.delete db env id).2.1.memories =
            db.memories.filter (fun r => r.id ≠ id)
        ∧ (truthyStr m.image_key = true →
            Event.removeBlob m.image_key (env.removeOk m.image_key) ∈
              (MemoryService.delete db env id).2.2)) := by
  constructor
  · intro h
    simp [MemoryService.delete, h]
  · intro m hm
    by_cases hk : truthyStr m.image_key
    · by_cases hr : env.removeOk m.image_key <;>
        simp [MemoryService.delete, hm, hk, hr]
    · simp [MemoryService.delete, hm, hk]

/-- Witness for C7: the row exists, every removal fails, yet the delete
reports success and the row is gone. -/
theorem memoryDelete_spec_witness :
    ((MemoryService.delete dbFix envStorageFail ("c")).1 = Except.ok ⟨true, ("c")⟩
      ∧ (MemoryService.delete dbFix envStorageFail ("c")).2.1.memories =
          dbFix.memories.filter (fun r => r.id ≠ ("c" : String)))
    ∧ dbFix.memories.filter (fun r => r.id ≠ ("c" : String)) =
        [mRow ("a") ("t1") ("ka"), mRow ("b") ("t1") ("kb")] := by
  have h := (memoryDelete_spec dbFix envStorageFail ("c")).2
    (mRow ("c") ("t2") ("kc")) (by decide)
  exact ⟨⟨h.1, h.2.1⟩, by decide⟩

/-- Among timeline rows with pairwise distinct slugs, filtering for the
slug of a member row whose id differs from `id` yields exactly that row. -/
theorem filter_slug_eq_singleton (ts : List TimelineRow) (t₀ : TimelineRow) (id : String)
    (hnd : (ts.map (fun t => t.slug)).Nodup) (ht : t₀ ∈ ts) (hid : t₀.id ≠ id) :
    ts.filter (fun t => t.slug == t₀.slug && t.id != id) = [t₀] := by
  induction ts with
  | nil => cases ht
  | cons t rest ih =>
      rw [List.map_cons, List.nodup_cons] at hnd
      rcases List.mem_cons.mp ht with h | h
      · subst h
        have hcond : (t₀.slug == t₀.slug && t₀.id != id) = true := by
          simp [bne, hid]
        have hrest : rest.filter (fun r => r.slug == t₀.slug && r.id != id) = [] := by
          rw [List.filter_eq_nil_iff]
          intro r hr hcontra
          exact hnd.1 (by
            have hslug : r.slug = t₀.slug := by
              have := (Bool.and_eq_true _ _).mp hcontra |>.1
              exact beq_iff_eq.mp this
            exact hslug ▸ List.mem_map_of_mem _ hr)
        simp [List.filter_cons, hcond, hrest, hid]
      · have hneq : (t.slug == t₀.slug) = false := by
          rw [beq_eq_false_iff_ne]
          intro he
          exact hnd.1 (he ▸ List.mem_map_of_mem _ h)
        have hcond : (t.slug == t₀.slug && t.id != id) = false := by
          rw [hneq, Bool.false_and]
        have hrec := ih hnd.2 h
        simp [List.filter_cons, hcond, hrec]

/-- C6: updating a timeline with a slug already carried by a different row
(slugs being unique across rows, per the schema constraint) aborts with
the slug-conflict throw before any row update, leaving the database — in
particular the original slug — unchanged. -/
theorem timelineUpdate_slugConflict (db : Db) (id : String)
    (input : TimelineService.UpdateTimelineInput) (t₀ : TimelineRow)
    (hnd : (db.timelines.map (fun t => t.slug)).Nodup)
    (ht : t₀ ∈ db.timelines) (hid : t₀.id ≠ id)
    (hslug : input.slug = some t₀.slug) (hne : t₀.slug ≠ "") :
    TimelineService.update db id input = (Except.error SvcError.slugConflict, db) := by
  have hfilter := filter_slug_eq_singleton db.timelines t₀ id hnd ht hid
  unfold TimelineService.update
  rw [hslug]
  simp [truthyOpt, truthyStr, hne, Option.getD, hfilter, singleResult]

/-- Witness for C6: moving the second fixture timeline onto the first
one's slug fails with the conflict error and leaves the database as it
was. -/
theorem timelineUpdate_slugConflict_witness :
    TimelineService.update dbFix ("t2") { slug := some ("one") } =
      (Except.error SvcError.slugConflict, dbFix) :=
  timelineUpdate_slugConflict dbFix ("t2") { slug := some ("one") }
    (tRow ("t1") ("one")) (by decide) (by decide) (by decide) rfl (by decide)

/-- Counterexample to C1: with the stored `image_key` differing from the
incoming one and the row update failing, the old blob has nevertheless
already been removed from storage — the code deletes the old image before,
not after, the row update. -/
theorem memoryUpdate_order_counterexample :
    (MemoryService.update dbFix envUpdateFail ("a") { image_key := some ("kb") }).1 =
      Except.error SvcError.updateMemoryFailed
    ∧ ("ka" : String) ∉
        (MemoryService.update dbFix envUpdateFail ("a") { image_key := some ("kb") }).2.1.blobs :=
  ⟨rfl, by decide⟩

/-- C1 as amended: on an update whose truthy `image_key` differs from the
stored one, the repository reads the stored key and attempts the old-blob
removal BEFORE the row update; the removal happens whatever the update's
fate (so a failed row update can leave the old blob already deleted), a
removal failure does not abort the update, and the row update's success is
independent of the removal outcome. -/
theorem memoryUpdate_old_blob_removed_before_row_update
    (db : Db) (env : Env) (id newKey : String)
    (input : MemoryService.UpdateMemoryInput) (m : MemoryRow)
    (hkey : input.image_key = some newKey) (hne : newKey ≠ "")
    (hm : singleResult (db.memories.filter (fun r => r.id == id)) = some m)
    (hold : m.image_key ≠ "") (hdiff : m.image_key ≠ newKey) :
    (MemoryService.update db env id input).2.2 =
      [Event.readImageKey id,
       Event.removeBlob m.image_key (env.removeOk m.image_key),
       Event.updateRow id]
    ∧ eventBefore (Event.removeBlob m.image_key (env.removeOk m.image_key))
        (Event.updateRow id) (MemoryService.update db env id input).2.2
    ∧ (env.removeOk m.image_key = true →
        (MemoryService.update db env id input).2.1.blobs =
          db.blobs.filter (fun k => k ≠ m.image_key))
    ∧ (env.updateOk = false →
        (MemoryService.update db env id input).1 = Except.error SvcError.updateMemoryFailed
        ∧ (MemoryService.update db env id input).2.1.memories = db.memories)
    ∧ (env.updateOk = true →
        (MemoryService.update db env id input).1 =
          Except.ok (MemoryService.applyUpdate m input)) := by
  have hcond : (truthyStr m.image_key && m.image_key != (input.image_key).getD "") = true := by
    rw [hkey]
    simp [truthyStr, bne, hold, hdiff]
  have htr : (MemoryService.update db env id input).2.2 =
      [Event.readImageKey id,
       Event.removeBlob m.image_key (env.removeOk m.image_key),
       Event.updateRow id] := by
    cases hrem : env.removeOk m.image_key <;> cases hupd : env.updateOk <;>
      simp [MemoryService.update, hm, hkey, truthyOpt, truthyStr, hne, hold, hdiff, hrem, hupd]
  refine ⟨htr, ?_, ?_, ?_, ?_⟩
  · rw [htr]
    exact ⟨[Event.readImageKey id], [], [], rfl⟩
  · intro hrem
    cases hupd : env.updateOk <;>
      simp [MemoryService.update, hm, hkey, truthyOpt, truthyStr, hne, hold, hdiff, hrem, hupd]
  · intro hupd
    cases hrem : env.removeOk m.image_key <;>
      simp [MemoryService.update, hm, hkey, truthyOpt, truthyStr, hne, hold, hdiff, hrem, hupd]
  · intro hupd
    cases hrem : env.removeOk m.image_key <;>
      simp [MemoryService.update, hm, hkey, truthyOpt, truthyStr, hne, hold, hdiff, hrem, hupd]

/-- Witness for the amended C1: on the fixture, the removal of the old
blob is traced before the row update even though the update then fails. -/
theorem memoryUpdate_old_blob_removed_before_row_update_witness :
    (MemoryService.update dbFix envUpdateFail ("a") { image_key := some ("kb") }).2.2 =
      [Event.readImageKey ("a"), Event.removeBlob ("ka") true, Event.updateRow ("a")]
    ∧ eventBefore (Event.removeBlob ("ka") true) (Event.updateRow ("a"))
        (MemoryService.update dbFix envUpdateFail ("a") { image_key := some ("kb") }).2.2 := by
  have h := memoryUpdate_old_blob_removed_before_row_update dbFix envUpdateFail
    ("a") ("kb") { image_key := some ("kb") } (mRow ("a") ("t1") ("ka"))
    rfl (by decide) (by decide) (by decide) (by decide)
  exact ⟨h.1, h.2.1⟩

/-- When every row delete in the cascade loop succeeds, the rows surviving
the loop are exactly those whose id matches no listed row, whatever the
blob-removal outcomes. -/
theorem deleteLoop_memories (env : Env) (listed : List MemoryRow) (db : Db)
    (hdel : ∀ e ∈ listed, env.rowDeleteOk e.id = true) :
    (MemoryService.deleteLoop env listed db).1.memories =
      db.memories.filter (fun m => listed.all (fun e => m.id != e.id)) := by
  induction listed generalizing db with
  | nil => simp [MemoryService.deleteLoop]
  | cons e rest ih =>
      have he : env.rowDeleteOk e.id = true := hdel e (List.mem_cons_self _ _)
      have hrest : ∀ x ∈ rest, env.rowDeleteOk x.id = true :=
        fun x hx => hdel x (List.mem_cons_of_mem _ hx)
      have hstep : ∀ dbx : Db,
          (MemoryService.deleteLoop env (e :: rest) dbx).1.memories =
            (MemoryService.deleteLoop env rest
              { dbx with memories := dbx.memories.filter (fun m => m.id ≠ e.id),
                         blobs := if truthyStr e.image_key && env.removeOk e.image_key then
                             dbx.blobs.filter (fun k => k ≠ e.image_key)
                           else dbx.blobs }).1.memories := by
        intro dbx
        by_cases hk : truthyStr e.image_key = true
        · cases hrem : env.removeOk e.image_key <;>
            simp [MemoryService.deleteLoop, he, hk, hrem]
        · simp [MemoryService.deleteLoop, he,
            Bool.not_eq_true _ ▸ hk, Bool.and_eq_true, hk]
      rw [hstep db, ih _ hrest]
      simp only [List.filter_filter, List.all_cons]
      congr 1
      funext m
      rw [Bool.and_comm]
      congr 1
      rw [Bool.eq_iff_iff]
      simp [bne]

/-- C2 (auto-cascade timeline delete): with the check and listing queries
succeeding and every row delete succeeding — but the blob removals
arbitrary — the delete reports success, no memory row references the
timeline afterwards, and when at least one row referenced it the cascade
is traced strictly before the timeline row delete. -/
theorem timelineDelete_cascade (db : Db) (env : Env) (tid : String)
    (hcheck : env.checkOk = true) (hlist : env.listOk = true)
    (hdel : ∀ i, env.rowDeleteOk i = true) :
    (TimelineService.delete db env tid).1 = Except.ok ⟨true, tid⟩
    ∧ (TimelineService.delete db env tid).2.1.memories.filter
        (fun m => m.timeline_id == tid) = []
    ∧ (db.memories.filter (fun m => m.timeline_id == tid) ≠ [] →
        eventBefore (Event.cascadeStart tid) (Event.deleteTimelineRow tid)
          (TimelineService.delete db env tid).2.2) := by
  by_cases hF : db.memories.filter (fun m => m.timeline_id == tid) = []
  · have hres : TimelineService.delete db env tid =
        (Except.ok ⟨true, tid⟩,
         { db with timelines := db.timelines.filter (fun t => t.id ≠ tid) },
         [Event.checkMemories tid, Event.deleteTimelineRow tid]) := by
      simp [TimelineService.delete, hcheck, hF]
    refine ⟨by rw [hres], by rw [hres]; exact hF, fun hcontra => absurd hF hcontra⟩
  · have hlen : 0 < (db.memories.filter (fun m => m.timeline_id == tid)).length :=
      List.length_pos.mpr hF
    have hloop := deleteLoop_memories env
      (db.memories.filter (fun m => m.timeline_id == tid)) db
      (fun e _ => hdel e.id)
    have hres : TimelineService.delete db env tid =
        (Except.ok ⟨true, tid⟩,
         { (MemoryService.deleteLoop env
              (db.memories.filter (fun m => m.timeline_id == tid)) db).1 with
            timelines := (MemoryService.deleteLoop env
              (db.memories.filter (fun m => m.timeline_id == tid)) db).1.timelines.filter
                (fun t => t.id ≠ tid) },
         Event.checkMemories tid :: Event.cascadeStart tid ::
           (Event.listByTimeline tid ::
             (MemoryService.deleteLoop env
               (db.memories.filter (fun m => m.timeline_id == tid)) db).2)
           ++ [Event.deleteTimelineRow tid]) := by
      simp [TimelineService.delete, hcheck, hlen, MemoryService.deleteByTimelineId,
        hlist, Except.map]
    refine ⟨by rw [hres], ?_, ?_⟩
    · rw [hres]
      simp only []
      rw [hloop, List.filter_filter, List.filter_eq_nil_iff]
      intro m hm hcontra
      have hmt : m.timeline_id == tid := ((Bool.and_eq_true _ _).mp hcontra).1
      have hall : (db.memories.filter (fun r => r.timeline_id == tid)).all
          (fun e => m.id != e.id) = true := ((Bool.and_eq_true _ _).mp hcontra).2
      have hmem : m ∈ db.memories.filter (fun r => r.timeline_id == tid) :=
        List.mem_filter.mpr ⟨hm, hmt⟩
      have := List.all_eq_true.mp hall m hmem
      simp [bne] at this
    · intro _
      rw [hres]
      exact ⟨[Event.checkMemories tid],
        Event.listByTimeline tid ::
          (MemoryService.deleteLoop env
            (db.memories.filter (fun m => m.timeline_id == tid)) db).2,
        [], by simp⟩

/-- Witness for C2: deleting the first fixture timeline while every blob
removal fails still removes both child rows, reports success, and traces
the cascade before the timeline row delete. -/
theorem timelineDelete_cascade_witness :
    ((TimelineService.delete dbFix envStorageFail ("t1")).1 = Except.ok ⟨true, ("t1")⟩
      ∧ (TimelineService.delete dbFix envStorageFail ("t1")).2.1.memories.filter
          (fun m => m.timeline_id == ("t1" : String)) = []
      ∧ eventBefore (Event.cascadeStart ("t1")) (Event.deleteTimelineRow ("t1"))
          (TimelineService.delete dbFix envStorageFail ("t1")).2.2)
    ∧ (TimelineService.delete dbFix envStorageFail ("t1")).2.1.memories =
        [mRow ("c") ("t2") ("kc")] := by
  have h := timelineDelete_cascade dbFix envStorageFail ("t1") rfl rfl (fun i => rfl)
  exact ⟨⟨h.1, h.2.1, h.2.2 (by decide)⟩, by decide⟩

/-- Unfolding of the frequency-map fold of `getAllWithMemoryCounts`: the
map built by the fold assigns each timeline id its occurrence count among
the folded rows, on top of the initial map. -/
theorem countMapFold (rows : List MemoryRow) (acc : String → Nat) (tid : String) :
    (rows.foldl (fun mp memory => fun t => if t == memory.timeline_id then mp t + 1 else mp t)
        acc) tid
      = acc tid + rows.countP (fun m => m.timeline_id == tid) := by
  induction rows generalizing acc with
  | nil => simp
  | cons r rest ih =>
      rw [List.foldl_cons, ih, List.countP_cons]
      by_cases h : tid = r.timeline_id
      · simp [h]
        omega
      · have h2 : ¬r.timeline_id = tid := fun he => h he.symm
        simp [h, h2]

/-- Counting with a conjoined predicate that is implied by the first one
counts the same rows. -/
theorem countP_and_absorb {α : Type} (l : List α) (p q : α → Bool)
    (h : ∀ a, p a = true → q a = true) :
    l.countP (fun a => p a && q a) = l.countP p := by
  induction l with
  | nil => rfl
  | cons a as ih =>
      rw [List.countP_cons, List.countP_cons, ih]
      by_cases hp : p a = true
      · simp [hp, h a hp]
      · rw [Bool.not_eq_true] at hp
        simp [hp]

/-- Counterexample to C3's query-count clause: on an empty page the
batched implementation issues zero child-fetch queries, not one. -/
theorem getAllWithMemoryCounts_query_count_counterexample :
    (TimelineService.getAllWithMemoryCounts ⟨[], [], []⟩ none none).2 = 0
    ∧ (0 : Nat) ≠ 1 :=
  ⟨rfl, by decide⟩

/-- C3 as amended: for every database state and page options, the batched
`getAllWithMemoryCounts` returns exactly the page of the naive
per-timeline exact-count variant — each timeline paired with the number of
memory rows whose `timeline_id` equals its id, zero when none match — and
it issues exactly one child-fetch query when the page is nonempty and zero
when the page is empty. -/
theorem getAllWithMemoryCounts_refines_naive (db : Db) (limit offset : Option Nat) :
    (TimelineService.getAllWithMemoryCounts db limit offset).1 =
      (TimelineService.getAllWithMemoryCountsNaive db limit offset).1
    ∧ (TimelineService.getAllWithMemoryCounts db limit offset).2 =
        (if (paginate db.timelines limit offset).isEmpty then 0 else 1) := by
  by_cases hempty : (paginate db.timelines limit offset).isEmpty = true
  · refine ⟨?_, ?_⟩ <;>
      simp [TimelineService.getAllWithMemoryCounts,
        TimelineService.getAllWithMemoryCountsNaive, hempty,
        List.isEmpty_iff.mp hempty]
  · refine ⟨?_, ?_⟩
    · unfold TimelineService.getAllWithMemoryCounts
        TimelineService.getAllWithMemoryCountsNaive
      rw [if_neg hempty]
      apply List.map_eq_map_iff.mpr
      intro t ht
      have hcount := countMapFold
        (db.memories.filter
          (fun m => ((paginate db.timelines limit offset).map (fun t => t.id)).contains
            m.timeline_id))
        (fun _ => 0) t.id
      rw [List.countP_filter] at hcount
      rw [hcount, Nat.zero_add,
        countP_and_absorb db.memories (fun m => m.timeline_id == t.id)
          (fun m => ((paginate db.timelines limit offset).map (fun t => t.id)).contains
            m.timeline_id)
          (fun m hm => by
            have hmt : m.timeline_id = t.id := beq_iff_eq.mp hm
            show ((paginate db.timelines limit offset).map
              (fun t => t.id)).contains m.timeline_id = true
            rw [hmt]
            exact List.elem_eq_true_of_mem (List.mem_map_of_mem _ ht))]
    · simp [TimelineService.getAllWithMemoryCounts, hempty]

/-- Round trip between `Char.ofNat` and `Char.toNat` on valid scalar
values. -/
theorem char_toNat_ofNat (n : Nat) (h : n.isValidChar) : (Char.ofNat n).toNat = n := by
  unfold Char.ofNat
  rw [dif_pos h]
  rfl

/-- Lowercasing sends every (case-insensitive) alphanumeric to a
lowercase alphanumeric. -/
theorem toLower_alnumCI (c : Char) (h : UploadService.isAlnumCI c = true) :
    TimelineService.isAlnumLower (Char.toLower c) = true := by
  simp only [UploadService.isAlnumCI, TimelineService.isAlnumLower, Bool.or_eq_true,
    Bool.and_eq_true, decide_eq_true_eq] at h ⊢
  rcases h with (⟨h1, h2⟩ | ⟨h1, h2⟩) | ⟨h1, h2⟩
  · have hn : (97 : Nat) ≤ c.toNat := h1
    have heq : Char.toLower c = c := by
      unfold Char.toLower
      rw [if_neg (by omega)]
    rw [heq]
    exact Or.inl ⟨h1, h2⟩
  · have hn : c.toNat ≤ (57 : Nat) := h2
    have heq : Char.toLower c = c := by
      unfold Char.toLower
      rw [if_neg (by omega)]
    rw [heq]
    exact Or.inr ⟨h1, h2⟩
  · have hA : (65 : Nat) ≤ c.toNat := h1
    have hZ : c.toNat ≤ (90 : Nat) := h2
    have heq : Char.toLower c = Char.ofNat (c.toNat + 32) := by
      unfold Char.toLower
      rw [if_pos ⟨hA, hZ⟩]
    have hvalid : (c.toNat + 32).isValidChar := Or.inl (by omega)
    have ht := char_toNat_ofNat (c.toNat + 32) hvalid
    rw [heq]
    refine Or.inl ⟨?_, ?_⟩
    · show (97 : Nat) ≤ (Char.ofNat (c.toNat + 32)).toNat
      omega
    · show (Char.ofNat (c.toNat + 32)).toNat ≤ (122 : Nat)
      omega

/-- Counterexample to C8: on `my photo.png` the space becomes a hyphen in
the generated key, while the spec's stripped form would drop it. -/
theorem generateFilePath_counterexample :
    UploadService.generateFilePath 123 ("abc") ("my photo.png") = ("123-abc-my-photo.png")
    ∧ UploadService.specClaimFilePath 123 ("abc") ("my photo.png") = ("123-abc-myphoto.png")
    ∧ UploadService.generateFilePath 123 ("abc") ("my photo.png") ≠
        UploadService.specClaimFilePath 123 ("abc") ("my photo.png") :=
  ⟨by decide, by decide, by decide⟩

/-- C8 as amended: the upload key is
`{timestamp}-{randomToken}-{sanitizedBaseName}.{extension}` where
`sanitizedBaseName` replaces (not strips) every character outside the
case-insensitive alphanumerics by a hyphen and then lowercases, so each of
its characters is a lowercase alphanumeric or a hyphen. -/
theorem generateFilePath_format (timestamp : Nat) (randomString fileName : String) :
    UploadService.generateFilePath timestamp randomString fileName =
      TimelineService.decStr timestamp ++ ("-") ++ randomString ++ ("-") ++
        UploadService.sanitizedBaseName fileName ++ (".") ++
        UploadService.fileExtension fileName
    ∧ ∀ c ∈ (UploadService.sanitizedBaseName fileName).data,
        TimelineService.isAlnumLower c = true ∨ c = '-' := by
  refine ⟨rfl, ?_⟩
  intro c hc
  simp only [UploadService.sanitizedBaseName, List.mem_map] at hc
  obtain ⟨c1, hc1, rfl⟩ := hc
  obtain ⟨c0, _, rfl⟩ := hc1
  by_cases h : UploadService.isAlnumCI c0 = true
  · exact Or.inl (by simpa [h] using toLower_alnumCI c0 h)
  · rw [Bool.not_eq_true] at h
    simp only [h, Bool.false_eq_true, if_false]
    exact Or.inr (by decide)

/-- A lowercase alphanumeric is not a hyphen. -/
theorem alnum_ne_dash (c : Char) (h : TimelineService.isAlnumLower c = true) :
    (c == '-') = false := by
  by_cases hc : c = '-'
  · subst hc
    exact absurd h (by decide)
  · exact beq_eq_false_iff_ne.mpr hc

/-- Dropping the head preserves the no-double-hyphen property. -/
theorem noDoubleDash_tail (c : Char) (l : List Char)
    (h : noDoubleDash (c :: l) = true) : noDoubleDash l = true := by
  cases l with
  | nil => rfl
  | cons d rest =>
      by_cases hb : (c == '-' && d == '-') = true
      · rw [noDoubleDash, if_pos hb] at h
        cases h
      · rw [noDoubleDash, if_neg hb] at h
        exact h

/-- Consing onto a list without double hyphens keeps the property when the
new pair is not two hyphens. -/
theorem noDoubleDash_cons_of (c : Char) (l : List Char)
    (hl : noDoubleDash l = true)
    (hc : ∀ d rest, l = d :: rest → (c == '-' && d == '-') = false) :
    noDoubleDash (c :: l) = true := by
  cases l with
  | nil => rfl
  | cons d rest =>
      rw [noDoubleDash, if_neg (by rw [hc d rest rfl]; exact Bool.false_ne_true)]
      exact hl

/-- Dropping a matching run from the front preserves the no-double-hyphen property. -/
theorem noDoubleDash_dropWhile (p : Char → Bool) (l : List Char)
    (h : noDoubleDash l = true) : noDoubleDash (l.dropWhile p) = true := by
  induction l with
  | nil => exact h
  | cons a as ih =>
      rw [List.dropWhile_cons]
      by_cases hp : p a = true
      · rw [if_pos hp]
        exact ih (noDoubleDash_tail _ _ h)
      · rw [if_neg hp]
        exact h

/-- A prefix of a list without double hyphens has none either. -/
theorem noDoubleDash_append_left (l₁ l₂ : List Char)
    (h : noDoubleDash (l₁ ++ l₂) = true) : noDoubleDash l₁ = true := by
  induction l₁ with
  | nil => rfl
  | cons a as ih =>
      cases as with
      | nil => rfl
      | cons b rest =>
          by_cases hb : (a == '-' && b == '-') = true
          · exfalso
            rw [List.cons_append, List.cons_append, noDoubleDash, if_pos hb] at h
            cases h
          · have h' : noDoubleDash ((b :: rest) ++ l₂) = true := by
              rw [List.cons_append, List.cons_append, noDoubleDash, if_neg hb] at h
              exact h
            have hrec := ih h'
            rw [noDoubleDash, if_neg hb]
            exact hrec

/-- Output characters of the run-collapsing pass are alphanumerics or
hyphens. -/
theorem collapseGo_all (b : Bool) (l : List Char) :
    allSlugChars (TimelineService.collapseGo b l) = true := by
  induction l generalizing b with
  | nil => rfl
  | cons c cs ih =>
      by_cases hc : TimelineService.isAlnumLower c = true
      · rw [TimelineService.collapseGo, if_pos hc]
        rw [allSlugChars, List.all_cons, hc, Bool.true_or, Bool.true_and]
        exact ih false
      · rw [TimelineService.collapseGo, if_neg hc]
        cases b with
        | true => rw [if_pos rfl]; exact ih true
        | false =>
            rw [if_neg Bool.false_ne_true]
            rw [allSlugChars, List.all_cons]
            have hd : (('-' : Char) == '-') = true := by decide
            rw [hd, Bool.or_true, Bool.true_and]
            exact ih true

/-- When the collapsing pass is inside a run, its next output character is
an alphanumeric. -/
theorem collapseGo_true_head (l : List Char) (c : Char) (rest : List Char)
    (h : TimelineService.collapseGo true l = c :: rest) :
    TimelineService.isAlnumLower c = true := by
  induction l generalizing c rest with
  | nil => cases h
  | cons a as ih =>
      by_cases ha : TimelineService.isAlnumLower a = true
      · rw [TimelineService.collapseGo, if_pos ha] at h
        cases h
        exact ha
      · rw [TimelineService.collapseGo, if_neg ha, if_pos rfl] at h
        exact ih c rest h

/-- The run-collapsing pass never emits two adjacent hyphens. -/
theorem collapseGo_noDoubleDash (b : Bool) (l : List Char) :
    noDoubleDash (TimelineService.collapseGo b l) = true := by
  induction l generalizing b with
  | nil => rfl
  | cons c cs ih =>
      by_cases hc : TimelineService.isAlnumLower c = true
      · rw [TimelineService.collapseGo, if_pos hc]
        refine noDoubleDash_cons_of _ _ (ih false) ?_
        intro d rest _
        rw [alnum_ne_dash c hc, Bool.false_and]
      · rw [TimelineService.collapseGo, if_neg hc]
        cases b with
        | true => rw [if_pos rfl]; exact ih true
        | false =>
            rw [if_neg Bool.false_ne_true]
            refine noDoubleDash_cons_of _ _ (ih true) ?_
            intro d rest hd
            rw [alnum_ne_dash d (collapseGo_true_head cs d rest hd), Bool.and_false]

/-- The head of a `dropWhile` result does not satisfy the dropped
predicate. -/
theorem head?_dropWhile_not (p : Char → Bool) (l : List Char) (c : Char)
    (h : (l.dropWhile p).head? = some c) : p c = false := by
  induction l with
  | nil => cases h
  | cons a as ih =>
      rw [List.dropWhile_cons] at h
      by_cases hp : p a = true
      · rw [if_pos hp] at h
        exact ih h
      · rw [if_neg hp] at h
        rw [List.head?_cons, Option.some.injEq] at h
        rw [h] at hp
        exact Bool.eq_false_iff.mpr hp

/-- The last element of a `rdropWhile` result does not satisfy the dropped
predicate. -/
theorem getLast?_rdropWhile_ne (p : Char → Bool) (l : List Char) (c : Char)
    (hp : p c = true) : (List.rdropWhile p l).getLast? ≠ some c := by
  intro h
  have hne : List.rdropWhile p l ≠ [] := by
    intro he
    rw [he] at h
    cases h
  have hnot := List.rdropWhile_last_not p l hne
  rw [List.getLast?_eq_getLast _ hne, Option.some.injEq] at h
  rw [h] at hnot
  exact hnot hp

/-- Acceptance of the slug automaton on any word over the slug alphabet
with no adjacent hyphens: from the post-alphanumeric state it accepts
whenever the word does not end in a hyphen, and from the initial state it
additionally requires a non-hyphen (hence alphanumeric) first character. -/
theorem slugOkGo_of_invariants (l : List Char)
    (hall : allSlugChars l = true) (hnd : noDoubleDash l = true)
    (hlast : l.getLast? ≠ some '-') :
    slugOkGo true l = true
    ∧ (l ≠ [] → l.head? ≠ some '-' → slugOkGo false l = true) := by
  induction l with
  | nil => exact ⟨rfl, fun h _ => absurd rfl h⟩
  | cons c cs ih =>
      have hc : (TimelineService.isAlnumLower c || c == '-') = true := by
        rw [allSlugChars, List.all_cons, Bool.and_eq_true] at hall
        exact hall.1
      have hall' : allSlugChars cs = true := by
        rw [allSlugChars, List.all_cons, Bool.and_eq_true] at hall
        exact hall.2
      have hnd' : noDoubleDash cs = true := noDoubleDash_tail _ _ hnd
      cases cs with
      | nil =>
          have hcne : c ≠ '-' := by
            intro he
            exact hlast (by rw [he]; rfl)
          have hca : TimelineService.isAlnumLower c = true := by
            rw [Bool.or_eq_true] at hc
            rcases hc with h | h
            · exact h
            · exact absurd (beq_iff_eq.mp h) hcne
          refine ⟨?_, fun _ _ => ?_⟩ <;> rw [slugOkGo, if_pos hca] <;> rfl
      | cons d rest =>
          have hlast' : (d :: rest).getLast? ≠ some '-' := by
            rw [List.getLast?_cons_cons] at hlast
            exact hlast
          have IH := ih hall' hnd' hlast'
          by_cases hca : TimelineService.isAlnumLower c = true
          · refine ⟨?_, fun _ _ => ?_⟩ <;> rw [slugOkGo, if_pos hca] <;> exact IH.1
          · have hcd : (c == '-') = true := by
              rw [Bool.or_eq_true] at hc
              rcases hc with h | h
              · exact absurd h hca
              · exact h
            have hdne : (d == '-') = false := by
              by_cases hdd : (d == '-') = true
              · exfalso
                have hcc : (c == '-' && d == '-') = true := by rw [hcd, hdd]; rfl
                rw [noDoubleDash, if_pos hcc] at hnd
                cases hnd
              · exact Bool.eq_false_iff.mpr hdd
            constructor
            · rw [slugOkGo, if_neg hca, if_pos hcd, Bool.true_and]
              refine IH.2 (List.cons_ne_nil d rest) ?_
              intro hh
              rw [List.head?_cons, Option.some.injEq] at hh
              rw [hh] at hdne
              simp at hdne
            · intro _ hhead
              exfalso
              apply hhead
              rw [List.head?_cons, Option.some.injEq]
              exact beq_iff_eq.mp hcd

/-- Stripping outer hyphens from any word over the slug alphabet with no
adjacent hyphens yields the empty word or a match of the slug regex. -/
theorem stripDashes_slugOk (M : List Char) (hallM : allSlugChars M = true)
    (hndM : noDoubleDash M = true) :
    TimelineService.stripDashes M = []
    ∨ slugOkGo false (TimelineService.stripDashes M) = true := by
  by_cases hr : TimelineService.stripDashes M = []
  · exact Or.inl hr
  · right
    have hndD : noDoubleDash (M.dropWhile (fun c => c == '-')) = true :=
      noDoubleDash_dropWhile _ _ hndM
    have hallD : allSlugChars (M.dropWhile (fun c => c == '-')) = true := by
      rw [allSlugChars, List.all_eq_true]
      intro x hx
      rw [allSlugChars, List.all_eq_true] at hallM
      exact hallM x ((List.dropWhile_sublist _).subset hx)
    have hpre : TimelineService.stripDashes M <+: M.dropWhile (fun c => c == '-') :=
      List.rdropWhile_prefix _ _
    have hallr : allSlugChars (TimelineService.stripDashes M) = true := by
      rw [allSlugChars, List.all_eq_true]
      intro x hx
      rw [allSlugChars, List.all_eq_true] at hallD
      exact hallD x (hpre.sublist.subset hx)
    obtain ⟨tail, htail⟩ := hpre
    have hndr : noDoubleDash (TimelineService.stripDashes M) = true :=
      noDoubleDash_append_left _ tail (by rw [htail]; exact hndD)
    have hlastr : (TimelineService.stripDashes M).getLast? ≠ some '-' :=
      getLast?_rdropWhile_ne _ _ '-' (by decide)
    have hhead : (TimelineService.stripDashes M).head? ≠ some '-' := by
      intro hh
      cases hsd : TimelineService.stripDashes M with
      | nil => rw [hsd] at hh; cases hh
      | cons c r' =>
          rw [hsd, List.head?_cons, Option.some.injEq] at hh
          have hD : (M.dropWhile (fun c => c == '-')).head? = some c := by
            rw [← htail, hsd, List.cons_append, List.head?_cons]
          have := head?_dropWhile_not (fun c => c == '-') M c hD
          rw [hh] at this
          simp at this
    exact (slugOkGo_of_invariants _ hallr hndr hlastr).2 hr hhead

/-- Counterexample to C4: a name consisting only of punctuation reduces to
the empty string, and `generateSlug` returns that empty string — which
does not match the regex — instead of throwing. -/
theorem generateSlug_empty_counterexample :
    TimelineService.generateSlug ("!!!") = ("") ∧ slugOk ("") = false :=
  ⟨by decide, by decide⟩

/-- C4 as amended: `generateSlug` lowercases, trims, collapses runs of
non-alphanumerics to single hyphens and strips outer hyphens, and its
result matches `^[a-z0-9]+(-[a-z0-9]+)*$` unless the name reduces to the
empty string, in which case the empty string is returned (the code never
throws). -/
theorem generateSlug_matches_pattern (name : String) :
    TimelineService.generateSlug name = ("")
    ∨ slugOk (TimelineService.generateSlug name) = true := by
  rcases stripDashes_slugOk
      (TimelineService.collapseGo false
        (TimelineService.trimChars (name.data.map Char.toLower)))
      (collapseGo_all false _) (collapseGo_noDoubleDash false _) with h | h
  · left
    unfold TimelineService.generateSlug
    rw [h]
  · right
    unfold TimelineService.generateSlug slugOk
    exact h

/-- Digit characters round-trip through `charVal` on single digits. -/
theorem digitChar_val (d : Nat) (h : d < 10) : charVal (Nat.digitChar d) = d := by
  interval_cases d <;> rfl

/-- The fuelled decimal printer is correct whenever the fuel exceeds the
number. -/
theorem decimalDigitsAux_val (fuel : Nat) :
    ∀ n, n < fuel → digitsVal (TimelineService.decimalDigitsAux fuel n) = n := by
  induction fuel with
  | zero => intro n h; omega
  | succ fuel ih =>
      intro n h
      rw [TimelineService.decimalDigitsAux]
      by_cases h10 : n < 10
      · rw [if_pos h10]
        show 10 * 0 + charVal (Nat.digitChar n) = n
        rw [digitChar_val n h10]
        omega
      · rw [if_neg h10]
        have hlt : n / 10 < n := Nat.div_lt_self (by omega) (by omega)
        have hfuel : n / 10 < fuel := by omega
        show List.foldl (fun a c => 10 * a + charVal c) 0
          (TimelineService.decimalDigitsAux fuel (n / 10) ++ [Nat.digitChar (n % 10)]) = n
        rw [List.foldl_append]
        have hval := ih (n / 10) hfuel
        rw [digitsVal] at hval
        rw [hval]
        show 10 * (n / 10) + charVal (Nat.digitChar (n % 10)) = n
        rw [digitChar_val (n % 10) (Nat.mod_lt n (by omega))]
        omega

/-- Decimal digit lists determine the number they print. -/
theorem decimalDigits_inj (m n : Nat)
    (h : TimelineService.decimalDigits m = TimelineService.decimalDigits n) : m = n := by
  have hm := decimalDigitsAux_val (m + 1) m (by omega)
  have hn := decimalDigitsAux_val (n + 1) n (by omega)
  rw [show TimelineService.decimalDigitsAux (m + 1) m = TimelineService.decimalDigits m from rfl] at hm
  rw [show TimelineService.decimalDigitsAux (n + 1) n = TimelineService.decimalDigits n from rfl] at hn
  rw [h] at hm
  omega

/-- The decimal printer never outputs the empty list. -/
theorem decimalDigits_ne_nil (n : Nat) : TimelineService.decimalDigits n ≠ [] := by
  rw [TimelineService.decimalDigits, TimelineService.decimalDigitsAux]
  by_cases h10 : n < 10
  · rw [if_pos h10]
    exact List.cons_ne_nil _ _
  · rw [if_neg h10]
    simp

/-- Probe candidates of the unique-slug loop are pairwise distinct. -/
theorem candidate_inj (base : String) (j k : Nat)
    (h : TimelineService.candidate base j = TimelineService.candidate base k) : j = k := by
  have hlen : ∀ i : Nat, i ≠ 0 →
      (TimelineService.candidate base i).length =
        base.length + 1 + (TimelineService.decStr i).length := by
    intro i hi
    rw [TimelineService.candidate, if_neg hi, String.length_append, String.length_append]
    have hone : ("-" : String).length = 1 := rfl
    rw [hone]
  have hpos : ∀ i : Nat, 0 < (TimelineService.decStr i).length := by
    intro i
    rw [TimelineService.decStr]
    cases hd : TimelineService.decimalDigits i with
    | nil => exact absurd hd (decimalDigits_ne_nil i)
    | cons c rest => simp [String.length, hd]
  by_cases hj : j = 0 <;> by_cases hk : k = 0
  · rw [hj, hk]
  · exfalso
    have hlj : (TimelineService.candidate base j).length = base.length := by
      rw [TimelineService.candidate, if_pos hj]
    have := hpos k
    rw [h, hlen k hk] at hlj
    omega
  · exfalso
    have hlk : (TimelineService.candidate base k).length = base.length := by
      rw [TimelineService.candidate, if_pos hk]
    have := hpos j
    rw [← h, hlen j hj] at hlk
    omega
  · have hdata := congrArg String.data h
    rw [TimelineService.candidate, TimelineService.candidate, if_neg hj, if_neg hk] at hdata
    have hdl : (base.data ++ ("-" : String).data) ++ (TimelineService.decStr j).data =
        (base.data ++ ("-" : String).data) ++ (TimelineService.decStr k).data := by
      simpa [List.append_assoc] using hdata
    have hdd : (TimelineService.decStr j).data = (TimelineService.decStr k).data :=
      List.append_cancel_left hdl
    exact decimalDigits_inj j k hdd

/-- A slug the probe reports taken occurs among the stored slugs. -/
theorem slugTaken_mem (ts : List TimelineRow) (s : String)
    (h : TimelineService.slugTaken ts s = true) : s ∈ ts.map (fun t => t.slug) := by
  rw [TimelineService.slugTaken] at h
  cases hf : ts.filter (fun t => t.slug == s) with
  | nil => rw [hf] at h; cases h
  | cons x rest =>
      cases rest with
      | nil =>
          have hx : x ∈ ts.filter (fun t => t.slug == s) := by
            rw [hf]
            exact List.mem_singleton_self x
          have := List.mem_filter.mp hx
          have hs : x.slug = s := beq_iff_eq.mp this.2
          rw [← hs]
          exact List.mem_map_of_mem _ this.1
      | cons y rest2 => rw [hf] at h; cases h

/-- Among rows with pairwise distinct slugs, filtering for the slug of a
member row yields exactly that row. -/
theorem filter_slug_singleton_nodup (ts : List TimelineRow) (t₀ : TimelineRow)
    (hnd : (ts.map (fun t => t.slug)).Nodup) (ht : t₀ ∈ ts) :
    ts.filter (fun t => t.slug == t₀.slug) = [t₀] := by
  induction ts with
  | nil => cases ht
  | cons t rest ih =>
      rw [List.map_cons, List.nodup_cons] at hnd
      rcases List.mem_cons.mp ht with h | h
      · subst h
        have hrest : rest.filter (fun r => r.slug == t₀.slug) = [] := by
          rw [List.filter_eq_nil_iff]
          intro r hr hcontra
          exact hnd.1 ((beq_iff_eq.mp hcontra) ▸ List.mem_map_of_mem _ hr)
        simp [List.filter_cons, hrest]
      · have hneq : (t.slug == t₀.slug) = false := by
          rw [beq_eq_false_iff_ne]
          intro he
          exact hnd.1 (he ▸ List.mem_map_of_mem _ h)
        have hrec := ih hnd.2 h
        simp [List.filter_cons, hneq, hrec]

/-- Under slug uniqueness, a stored slug is reported taken by the probe. -/
theorem slugTaken_of_mem (ts : List TimelineRow) (s : String)
    (hnd : (ts.map (fun t => t.slug)).Nodup) (hmem : s ∈ ts.map (fun t => t.slug)) :
    TimelineService.slugTaken ts s = true := by
  obtain ⟨t₀, ht₀, rfl⟩ := List.mem_map.mp hmem
  rw [TimelineService.slugTaken, filter_slug_singleton_nodup ts t₀ hnd ht₀]
  rfl

/-- Pigeonhole for the probe loop: within the first `length + 1`
candidates one is free. -/
theorem exists_free_candidate (ts : List TimelineRow) (base : String) :
    ∃ k, k ≤ ts.length ∧
      TimelineService.slugTaken ts (TimelineService.candidate base k) = false := by
  by_contra hcon
  push_neg at hcon
  have htaken : ∀ k, k ≤ ts.length →
      TimelineService.slugTaken ts (TimelineService.candidate base k) = true := by
    intro k hk
    cases hb : TimelineService.slugTaken ts (TimelineService.candidate base k) with
    | false => exact absurd hb (hcon k hk)
    | true => rfl
  have hsubset : ((List.range (ts.length + 1)).map (TimelineService.candidate base)) ⊆
      ts.map (fun t => t.slug) := by
    intro s hs
    obtain ⟨k, hk, rfl⟩ := List.mem_map.mp hs
    refine slugTaken_mem _ _ (htaken k ?_)
    have := List.mem_range.mp hk
    omega
  have hnodup : ((List.range (ts.length + 1)).map (TimelineService.candidate base)).Nodup :=
    List.Nodup.map (fun a b h => candidate_inj base a b h) (List.nodup_range _)
  have h1 : ((List.range (ts.length + 1)).map (TimelineService.candidate base)).toFinset.card =
      ts.length + 1 := by
    rw [List.toFinset_card_of_nodup hnodup, List.length_map, List.length_range]
  have h2 : ((List.range (ts.length + 1)).map (TimelineService.candidate base)).toFinset ⊆
      (ts.map (fun t => t.slug)).toFinset := by
    intro s hs
    rw [List.mem_toFinset] at hs ⊢
    exact hsubset hs
  have h3 := Finset.card_le_card h2
  have h4 : (ts.map (fun t => t.slug)).toFinset.card ≤ ts.length := by
    have hcle := List.toFinset_card_le (ts.map (fun t => t.slug))
    rw [List.length_map] at hcle
    exact hcle
  omega

/-- Correctness of the fuelled probe loop: given enough fuel to reach a
free candidate, it returns the first free candidate at or after the
starting counter. -/
theorem generateUniqueSlugAux_spec (ts : List TimelineRow) (base : String) :
    ∀ (fuel start : Nat),
      (∃ k, start ≤ k ∧ k < start + fuel ∧
        TimelineService.slugTaken ts (TimelineService.candidate base k) = false) →
      ∃ k, TimelineService.generateUniqueSlugAux ts base fuel start =
            some (TimelineService.candidate base k)
        ∧ start ≤ k
        ∧ TimelineService.slugTaken ts (TimelineService.candidate base k) = false
        ∧ ∀ j, start ≤ j → j < k →
            TimelineService.slugTaken ts (TimelineService.candidate base j) = true := by
  intro fuel
  induction fuel with
  | zero =>
      intro start hex
      exfalso
      obtain ⟨k, h1, h2, _⟩ := hex
      omega
  | succ fuel ih =>
      intro start hex
      by_cases hs : TimelineService.slugTaken ts (TimelineService.candidate base start) = true
      · have hex' : ∃ k, start + 1 ≤ k ∧ k < (start + 1) + fuel ∧
            TimelineService.slugTaken ts (TimelineService.candidate base k) = false := by
          obtain ⟨k, h1, h2, h3⟩ := hex
          have hne : k ≠ start := by
            intro he
            rw [he, hs] at h3
            cases h3
          exact ⟨k, by omega, by omega, h3⟩
        obtain ⟨k, hk1, hk2, hk3, hk4⟩ := ih (start + 1) hex'
        refine ⟨k, ?_, by omega, hk3, ?_⟩
        · rw [TimelineService.generateUniqueSlugAux]
          simp only [hs, if_true]
          exact hk1
        · intro j hj1 hj2
          by_cases hje : j = start
          · rw [hje]
            exact hs
          · exact hk4 j (by omega) hj2
      · refine ⟨start, ?_, Nat.le_refl _, Bool.eq_false_iff.mpr hs, fun j hj1 hj2 => by omega⟩
        rw [TimelineService.generateUniqueSlugAux]
        simp [Bool.eq_false_iff.mpr hs]

/-- C5: for a database whose stored slugs form a set (pairwise distinct,
as the schema's UNIQUE constraint guarantees), the probe loop terminates
within `length + 1` probes and `generateUniqueSlug` returns the first
candidate among `base`, `base-1`, `base-2`, ... that equals no stored
slug; every earlier candidate is a stored slug. -/
theorem generateUniqueSlug_first_free (db : Db) (name : String)
    (hnd : (db.timelines.map (fun t => t.slug)).Nodup) :
    ∃ k, TimelineService.generateUniqueSlug db name =
          some (TimelineService.candidate (TimelineService.generateSlug name) k)
      ∧ TimelineService.candidate (TimelineService.generateSlug name) k ∉
          db.timelines.map (fun t => t.slug)
      ∧ ∀ j < k, TimelineService.candidate (TimelineService.generateSlug name) j ∈
          db.timelines.map (fun t => t.slug) := by
  obtain ⟨k0, hk0, hfree⟩ :=
    exists_free_candidate db.timelines (TimelineService.generateSlug name)
  obtain ⟨k, hres, _, hkfree, hmin⟩ :=
    generateUniqueSlugAux_spec db.timelines (TimelineService.generateSlug name)
      (db.timelines.length + 1) 0 ⟨k0, by omega, by omega, hfree⟩
  refine ⟨k, hres, ?_, ?_⟩
  · intro hmem
    rw [slugTaken_of_mem db.timelines _ hnd hmem] at hkfree
    cases hkfree
  · intro j hj
    exact slugTaken_mem _ _ (hmin j (by omega) hj)

/-- Witness for C5: with `trip-to-rome` and `trip-to-rome-1` stored, the
name `Trip to Rome` receives `trip-to-rome-2`. -/
theorem generateUniqueSlug_first_free_witness :
    (∃ k, TimelineService.generateUniqueSlug dbSlugs ("Trip to Rome") =
          some (TimelineService.candidate
            (TimelineService.generateSlug ("Trip to Rome")) k)
      ∧ TimelineService.candidate (TimelineService.generateSlug ("Trip to Rome")) k ∉
          dbSlugs.timelines.map (fun t => t.slug)
      ∧ ∀ j < k, TimelineService.candidate
          (TimelineService.generateSlug ("Trip to Rome")) j ∈
          dbSlugs.timelines.map (fun t => t.slug))
    ∧ TimelineService.generateUniqueSlug dbSlugs ("Trip to Rome") =
        some ("trip-to-rome-2") :=
  ⟨generateUniqueSlug_first_free dbSlugs ("Trip to Rome") (by decide), by decide⟩
